import Mathlib

/- Verification of the AgentForge preview server
   (src/backend/preview_server.py), the ephemeral sandbox execution
   manager.  Paths are modelled as lists of segments, the on-disk state
   as an association list from paths to entries (a later binding shadows
   an earlier one).  POSIX path semantics are assumed (os.path.sep is
   the slash character). -/

/-! ## Name sanitization (write_project_to_disk, line 114)

`sanitized_name = name.replace('..', '').lstrip('/')`:  Python's
`str.replace` removes the non-overlapping occurrences of two
consecutive dots scanning left to right; `lstrip('/')` then removes the
leading slashes. -/

/-- Model of Python's `name.replace('..', '')` on the character list of
the name: the leftmost occurrence of two consecutive dots is removed
first, and scanning resumes after it. -/
def stripDotDot : List Char → List Char
  | [] => []
  | [c] => [c]
  | c :: d :: rest =>
    if c = '.' ∧ d = '.' then stripDotDot rest
    else c :: stripDotDot (d :: rest)

/-- Model of Python's `.lstrip('/')`: drop the leading slash characters. -/
def lstripSlash : List Char → List Char
  | [] => []
  | c :: rest => if c = '/' then lstripSlash rest else c :: rest

/-- The sanitization performed on each entry name by
write_project_to_disk before the name is joined under the destination
root. -/
def sanitize (name : String) : String :=
  ⟨lstripSlash (stripDotDot name.data)⟩

/-- Decides that a character list has no two consecutive dots. -/
def ddFree : List Char → Bool
  | [] => true
  | [_] => true
  | c :: d :: rest => !(c == '.' && d == '.') && ddFree (d :: rest)

theorem stripDotDot_cons_ne (c : Char) (t : List Char) (h : c ≠ '.') :
    stripDotDot (c :: t) = c :: stripDotDot t := by
  cases t with
  | nil => rfl
  | cons d r =>
    have hn : ¬ (c = '.' ∧ d = '.') := fun hc => h hc.1
    rw [stripDotDot, if_neg hn]

theorem ddFree_stripDotDot (l : List Char) : ddFree (stripDotDot l) = true := by
  induction l using stripDotDot.induct with
  | case1 => rfl
  | case2 c => rfl
  | case3 c d rest h ih =>
    rw [stripDotDot, if_pos h]
    exact ih
  | case4 c d rest h ih =>
    rw [stripDotDot, if_neg h]
    by_cases hc : c = '.'
    · have hd : d ≠ '.' := fun hdd => h ⟨hc, hdd⟩
      rw [stripDotDot_cons_ne d rest hd] at ih ⊢
      simp only [ddFree, ih, Bool.and_true]
      simp [hd]
    · cases hss : stripDotDot (d :: rest) with
      | nil => simp [ddFree]
      | cons e x =>
        rw [hss] at ih
        simp only [ddFree, ih, Bool.and_true]
        simp [hc]

theorem ddFree_false_of_dd (l : List Char) (h : ['.', '.'] <:+: l) :
    ddFree l = false := by
  rcases h with ⟨s, t, hst⟩
  subst hst
  induction s with
  | nil => simp [ddFree]
  | cons c s ih =>
    cases hs : s ++ ['.', '.'] ++ t with
    | nil => simp at hs
    | cons e x =>
      have ih' : ddFree (e :: x) = false := by rw [← hs]; exact ih
      have hl : (c :: s) ++ ['.', '.'] ++ t = c :: (e :: x) := by
        rw [← hs]; simp
      rw [hl, ddFree, ih', Bool.and_false]

theorem no_dd_of_ddFree (l : List Char) (h : ddFree l = true) :
    ¬ (['.', '.'] <:+: l) := fun hin => by
  rw [ddFree_false_of_dd l hin] at h
  cases h

theorem lstripSlash_suffix (l : List Char) : lstripSlash l <:+ l := by
  induction l with
  | nil => exact List.suffix_refl _
  | cons c t ih =>
    rw [lstripSlash]
    by_cases hc : c = '/'
    · rw [if_pos hc]
      exact ih.trans (List.suffix_cons c t)
    · rw [if_neg hc]

/-- The sanitized name never contains two consecutive dots. -/
theorem sanitize_no_dd (name : String) :
    ¬ (['.', '.'] <:+: (sanitize name).data) := by
  intro h
  have hsuf : (sanitize name).data <:+ stripDotDot name.data := by
    simpa [sanitize] using lstripSlash_suffix (stripDotDot name.data)
  exact no_dd_of_ddFree _ (ddFree_stripDotDot name.data)
    (h.trans hsuf.isInfix)

/-! ## Splitting a sanitized name into path segments

`os.path.join(base_dir, sanitized_name)` (the name may carry embedded
slashes) is modelled by splitting the name at the slashes and resolving
the segments against the base path with the usual POSIX rules: an empty
or `.` segment is dropped, a `..` segment pops the last component. -/

/-- Prepend a character to the first chunk of a split. -/
def consHead (c : Char) : List (List Char) → List (List Char)
  | [] => [[c]]
  | s :: rest => (c :: s) :: rest

/-- Split a character list at the slash characters. -/
def segsOf : List Char → List (List Char)
  | [] => [[]]
  | c :: t => if c = '/' then [] :: segsOf t else consHead c (segsOf t)

/-- The slash-separated segments of a name. -/
def segs (s : String) : List String :=
  (segsOf s.data).map fun l => ⟨l⟩

/-- POSIX resolution of relative segments against a base path: `..`
pops the last component, empty and `.` segments are skipped, any other
segment is appended. -/
def resolve (acc : List String) : List String → List String
  | [] => acc
  | s :: rest =>
    if s = ".." then resolve acc.dropLast rest
    else if s = "" ∨ s = "." then resolve acc rest
    else resolve (acc ++ [s]) rest

theorem segsOf_head_pre :
    ∀ (l : List Char) (s : List Char) (rest : List (List Char)),
      segsOf l = s :: rest → s <+: l := by
  intro l
  induction l with
  | nil =>
    intro s rest h
    rw [segsOf] at h
    cases h
    exact List.nil_prefix
  | cons c t ih =>
    intro s rest h
    rw [segsOf] at h
    by_cases hc : c = '/'
    · rw [if_pos hc] at h
      cases h
      exact List.nil_prefix
    · rw [if_neg hc] at h
      cases hrec : segsOf t with
      | nil =>
        rw [hrec] at h
        simp only [consHead] at h
        injection h with h1 h2
        subst h1
        exact List.cons_prefix_cons.mpr ⟨rfl, List.nil_prefix⟩
      | cons s2 r2 =>
        rw [hrec] at h
        simp only [consHead] at h
        injection h with h1 h2
        subst h1
        exact List.cons_prefix_cons.mpr ⟨rfl, ih s2 r2 hrec⟩

theorem mem_segsOf_isInfix (l : List Char) :
    ∀ seg ∈ segsOf l, seg <:+: l := by
  induction l with
  | nil =>
    intro seg hseg
    rw [segsOf] at hseg
    simp at hseg
    simp [hseg]
  | cons c t ih =>
    intro seg hseg
    rw [segsOf] at hseg
    by_cases hc : c = '/'
    · rw [if_pos hc] at hseg
      rcases List.mem_cons.mp hseg with h | h
      · simp [h]
      · exact List.infix_cons (ih seg h)
    · rw [if_neg hc] at hseg
      cases hrec : segsOf t with
      | nil =>
        rw [hrec] at hseg
        simp only [consHead] at hseg
        rcases List.mem_cons.mp hseg with h | h
        · subst h
          exact (List.cons_prefix_cons.mpr ⟨rfl, List.nil_prefix⟩).isInfix
        · simp at h
      | cons s2 r2 =>
        rw [hrec] at hseg
        simp only [consHead] at hseg
        rcases List.mem_cons.mp hseg with h | h
        · subst h
          exact (List.cons_prefix_cons.mpr ⟨rfl, segsOf_head_pre t s2 r2 hrec⟩).isInfix
        · have : seg ∈ segsOf t := by
            rw [hrec]; exact List.mem_cons_of_mem s2 h
          exact List.infix_cons (ih seg this)

/-- No segment of a sanitized name is the `..` segment. -/
theorem segs_sanitize_ne_dd (name : String) :
    ∀ s ∈ segs (sanitize name), s ≠ ".." := by
  intro s hs hdd
  rcases List.mem_map.mp hs with ⟨l, hl, hmk⟩
  have hld : l = ['.', '.'] := by
    have := congrArg String.data hmk
    simpa [hdd] using this
  subst hld
  exact sanitize_no_dd name (mem_segsOf_isInfix _ _ hl)

/-- Resolving segments that contain no `..` only ever extends the base
path. -/
theorem resolve_extends :
    ∀ (l : List String) (acc : List String), (∀ s ∈ l, s ≠ "..") →
      acc <+: resolve acc l := by
  intro l
  induction l with
  | nil =>
    intro acc _
    exact List.prefix_rfl
  | cons s rest ih =>
    intro acc h
    rw [resolve]
    rw [if_neg (h s (List.mem_cons_self s rest))]
    by_cases hse : s = "" ∨ s = "."
    · rw [if_pos hse]
      exact ih acc (fun x hx => h x (List.mem_cons_of_mem s hx))
    · rw [if_neg hse]
      exact (List.prefix_append acc [s]).trans
        (ih (acc ++ [s]) (fun x hx => h x (List.mem_cons_of_mem s hx)))

/-- The sanitized name, joined under a base path, always resolves to a
path extending the base path. -/
theorem resolve_sanitize_extends (base : List String) (name : String) :
    base <+: resolve base (segs (sanitize name)) :=
  resolve_extends _ base (segs_sanitize_ne_dd name)

/-! ## The on-disk state

The disk is an association list from paths to entries; a later binding
shadows an earlier one. -/

inductive FSEntry where
  | dir : FSEntry
  | file (content : String) : FSEntry
deriving DecidableEq

abbrev FPath := List String

abbrev FS := List (FPath × FSEntry)

/-- Look a path up in the disk state (the most recent binding wins). -/
def fsGet (fs : FS) (p : FPath) : Option FSEntry :=
  match fs with
  | [] => none
  | (q, e) :: rest => if q = p then some e else fsGet rest p

/-- Create a single directory when nothing exists at its path.  (Where
the OS call would raise on an existing file the model skips instead and
continues; the model is total, which only adds behaviours after the
point where CPython would have aborted.) -/
def mkdirOne (fs : FS) (p : FPath) : FS :=
  if (fsGet fs p).isSome then fs else (p, FSEntry.dir) :: fs

/-- Model of `os.makedirs(path, exist_ok=True)`: create every missing
prefix of the path, shortest first. -/
def makedirs (fs : FS) (p : FPath) : FS :=
  p.inits.foldl mkdirOne fs

/-- Model of `open(path, 'w')` followed by `f.write(content)`. -/
def writeFileFS (fs : FS) (p : FPath) (c : String) : FS :=
  (p, FSEntry.file c) :: fs

/-! ## The virtual file tree and its materialization

A node of the wire format is a JSON object that may carry a `type`
field, a `content` field and a `children` field (write_project_to_disk
reads all three with `.get`); a tree is an ordered mapping from entry
names to nodes (Python dict keys are unique and iterate in insertion
order). -/

mutual
inductive VNode where
  | mk (ty : Option String) (content : Option String) (children : VTree)

inductive VTree where
  | nil : VTree
  | cons (name : String) (node : VNode) (rest : VTree) : VTree
end

mutual
/-- Model of one iteration of the loop in write_project_to_disk
(src/backend/preview_server.py lines 110-125): sanitize the entry name,
join it under the base directory, then dispatch on the `type` field: a
`folder` is created with `os.makedirs` and its `children` are written
below it when they are non-empty (`if item.get('children')`), a `file`
is written after `os.makedirs(os.path.dirname(path))` with the
`content` string (defaulting to the empty string); an entry whose
`type` is missing or anything else is skipped. -/
def writeNode (fs : FS) (base : FPath) (name : String) (n : VNode) : FS :=
  match n with
  | VNode.mk ty content children =>
    let path := resolve base (segs (sanitize name))
    if ty = some "folder" then
      match children with
      | VTree.nil => makedirs fs path
      | VTree.cons a b r => writeTree (makedirs fs path) path (VTree.cons a b r)
    else if ty = some "file" then
      writeFileFS (makedirs fs path.dropLast) path (content.getD "")
    else fs

/-- Model of write_project_to_disk (lines 108-125): write every entry of
the virtual file system, in order, under the base directory. -/
def writeTree (fs : FS) (base : FPath) (t : VTree) : FS :=
  match t with
  | VTree.nil => fs
  | VTree.cons name node rest => writeTree (writeNode fs base name node) base rest
end

theorem fsGet_cons (q : FPath) (e : FSEntry) (fs : FS) (p : FPath) :
    fsGet ((q, e) :: fs) p = if q = p then some e else fsGet fs p := rfl

theorem ext_trans {a b c : FS} (h1 : ∃ l, b = l ++ a) (h2 : ∃ l, c = l ++ b) :
    ∃ l, c = l ++ a := by
  rcases h1 with ⟨l1, rfl⟩
  rcases h2 with ⟨l2, rfl⟩
  exact ⟨l2 ++ l1, (List.append_assoc l2 l1 a).symm⟩

theorem fsGet_append (l fs : FS) (p : FPath) :
    fsGet (l ++ fs) p = (fsGet l p).or (fsGet fs p) := by
  induction l with
  | nil => rfl
  | cons hd tl ih =>
    obtain ⟨q, e⟩ := hd
    by_cases h : q = p
    · simp [fsGet, h]
    · simp [fsGet, h, ih]

theorem ext_isSome {fs fs' : FS} (h : ∃ l, fs' = l ++ fs) (p : FPath)
    (hp : (fsGet fs p).isSome = true) : (fsGet fs' p).isSome = true := by
  rcases h with ⟨l, rfl⟩
  rw [fsGet_append]
  cases fsGet l p <;> simp [Option.or, hp]

theorem mkdirOne_ext (fs : FS) (p : FPath) : ∃ l, mkdirOne fs p = l ++ fs := by
  rw [mkdirOne]
  by_cases h : (fsGet fs p).isSome
  · exact ⟨[], by rw [if_pos h]; rfl⟩
  · exact ⟨[(p, FSEntry.dir)], by rw [if_neg h]; rfl⟩

theorem foldl_mkdirOne_ext (ps : List FPath) (fs : FS) :
    ∃ l, ps.foldl mkdirOne fs = l ++ fs := by
  induction ps generalizing fs with
  | nil => exact ⟨[], rfl⟩
  | cons p ps ih =>
    rw [List.foldl_cons]
    exact ext_trans (mkdirOne_ext fs p) (ih (mkdirOne fs p))

theorem makedirs_ext (fs : FS) (p : FPath) : ∃ l, makedirs fs p = l ++ fs :=
  foldl_mkdirOne_ext p.inits fs

theorem writeFileFS_ext (fs : FS) (p : FPath) (c : String) :
    ∃ l, writeFileFS fs p c = l ++ fs := ⟨[(p, FSEntry.file c)], rfl⟩

theorem writeNode_def_nil (fs : FS) (base : FPath) (name : String)
    (ty content : Option String) :
    writeNode fs base name (VNode.mk ty content VTree.nil) =
      (if ty = some "folder" then
        makedirs fs (resolve base (segs (sanitize name)))
      else if ty = some "file" then
        writeFileFS (makedirs fs (resolve base (segs (sanitize name))).dropLast)
          (resolve base (segs (sanitize name))) (content.getD "")
      else fs) := rfl

theorem writeNode_def_cons (fs : FS) (base : FPath) (name : String)
    (ty content : Option String) (a : String) (b : VNode) (r : VTree) :
    writeNode fs base name (VNode.mk ty content (VTree.cons a b r)) =
      (if ty = some "folder" then
        writeTree (makedirs fs (resolve base (segs (sanitize name))))
          (resolve base (segs (sanitize name))) (VTree.cons a b r)
      else if ty = some "file" then
        writeFileFS (makedirs fs (resolve base (segs (sanitize name))).dropLast)
          (resolve base (segs (sanitize name))) (content.getD "")
      else fs) := rfl

theorem writeTree_nil (fs : FS) (base : FPath) :
    writeTree fs base VTree.nil = fs := rfl

theorem writeTree_cons (fs : FS) (base : FPath) (name : String)
    (node : VNode) (rest : VTree) :
    writeTree fs base (VTree.cons name node rest) =
      writeTree (writeNode fs base name node) base rest := rfl

mutual
theorem writeNode_ext (fs : FS) (base : FPath) (name : String) (n : VNode) :
    ∃ l, writeNode fs base name n = l ++ fs := by
  cases n with
  | mk ty content children =>
    cases children with
    | nil =>
      rw [writeNode_def_nil]
      by_cases hf : ty = some "folder"
      · rw [if_pos hf]
        exact makedirs_ext fs _
      · rw [if_neg hf]
        by_cases hfi : ty = some "file"
        · rw [if_pos hfi]
          exact ext_trans (makedirs_ext fs _) (writeFileFS_ext _ _ _)
        · rw [if_neg hfi]
          exact ⟨[], rfl⟩
    | cons a b r =>
      rw [writeNode_def_cons]
      by_cases hf : ty = some "folder"
      · rw [if_pos hf]
        exact ext_trans (makedirs_ext fs _)
          (writeTree_ext (makedirs fs _) _ (VTree.cons a b r))
      · rw [if_neg hf]
        by_cases hfi : ty = some "file"
        · rw [if_pos hfi]
          exact ext_trans (makedirs_ext fs _) (writeFileFS_ext _ _ _)
        · rw [if_neg hfi]
          exact ⟨[], rfl⟩

theorem writeTree_ext (fs : FS) (base : FPath) (t : VTree) :
    ∃ l, writeTree fs base t = l ++ fs := by
  cases t with
  | nil => exact ⟨[], rfl⟩
  | cons name node rest =>
    rw [writeTree_cons]
    exact ext_trans (writeNode_ext fs base name node)
      (writeTree_ext (writeNode fs base name node) base rest)
end

theorem mkdirOne_changed {fs : FS} {p q : FPath}
    (h : fsGet (mkdirOne fs p) q ≠ fsGet fs q) : q = p ∧ fsGet fs q = none := by
  rw [mkdirOne] at h
  by_cases hs : (fsGet fs p).isSome
  · rw [if_pos hs] at h
    exact absurd rfl h
  · rw [if_neg hs] at h
    rw [fsGet_cons] at h
    by_cases hq : p = q
    · subst hq
      exact ⟨rfl, Option.not_isSome_iff_eq_none.mp hs⟩
    · rw [if_neg hq] at h
      exact absurd rfl h

theorem mkdirOne_sets (fs : FS) (p : FPath) :
    (fsGet (mkdirOne fs p) p).isSome = true := by
  rw [mkdirOne]
  by_cases hs : (fsGet fs p).isSome
  · rw [if_pos hs]
    exact hs
  · rw [if_neg hs, fsGet_cons, if_pos rfl]
    rfl

theorem foldl_mkdirOne_changed (ps : List FPath) :
    ∀ (fs : FS) (q : FPath), fsGet (ps.foldl mkdirOne fs) q ≠ fsGet fs q →
      q ∈ ps ∧ fsGet fs q = none := by
  induction ps with
  | nil =>
    intro fs q h
    exact absurd rfl h
  | cons p ps ih =>
    intro fs q h
    rw [List.foldl_cons] at h
    by_cases h1 : fsGet (mkdirOne fs p) q = fsGet fs q
    · have h2 : fsGet (ps.foldl mkdirOne (mkdirOne fs p)) q ≠ fsGet (mkdirOne fs p) q := by
        rw [h1]
        exact h
      rcases ih (mkdirOne fs p) q h2 with ⟨hm, hn⟩
      rw [h1] at hn
      exact ⟨List.mem_cons_of_mem p hm, hn⟩
    · rcases mkdirOne_changed h1 with ⟨hq, hn⟩
      subst hq
      exact ⟨List.mem_cons_self q ps, hn⟩

theorem foldl_mkdirOne_sets (ps : List FPath) :
    ∀ (fs : FS) (q : FPath), q ∈ ps →
      (fsGet (ps.foldl mkdirOne fs) q).isSome = true := by
  induction ps with
  | nil =>
    intro fs q h
    cases h
  | cons p ps ih =>
    intro fs q h
    rw [List.foldl_cons]
    rcases List.mem_cons.mp h with h | h
    · subst h
      exact ext_isSome (foldl_mkdirOne_ext ps (mkdirOne fs q)) q (mkdirOne_sets fs q)
    · exact ih (mkdirOne fs p) q h

theorem makedirs_changed {fs : FS} {p q : FPath}
    (h : fsGet (makedirs fs p) q ≠ fsGet fs q) : q <+: p ∧ fsGet fs q = none := by
  rcases foldl_mkdirOne_changed p.inits fs q h with ⟨hm, hn⟩
  exact ⟨(List.mem_inits q p).mp hm, hn⟩

theorem makedirs_sets (fs : FS) (p : FPath) :
    ∀ q, q <+: p → (fsGet (makedirs fs p) q).isSome = true := fun q hq =>
  foldl_mkdirOne_sets p.inits fs q ((List.mem_inits q p).mpr hq)

theorem writeFileFS_changed {fs : FS} {p q : FPath} {c : String}
    (h : fsGet (writeFileFS fs p c) q ≠ fsGet fs q) : q = p := by
  rw [writeFileFS, fsGet_cons] at h
  by_cases hq : p = q
  · exact hq.symm
  · rw [if_neg hq] at h
    exact absurd rfl h

/-- One step of the safety argument: a key whose binding changed and
that was absent before lies under the base, provided it is a prefix of
a path extending the base and every prefix of the base is present. -/
theorem changed_key_under_base {fs : FS} {base q path : FPath}
    (hb : ∀ r, r <+: base → (fsGet fs r).isSome = true)
    (hqp : q <+: path) (hbp : base <+: path) (hn : fsGet fs q = none) :
    base <+: q := by
  rcases List.prefix_or_prefix_of_prefix hqp hbp with h | h
  · have := hb q h
    rw [hn] at this
    cases this
  · exact h

mutual
theorem writeNode_inside (fs : FS) (base : FPath) (name : String) (n : VNode)
    (hb : ∀ q, q <+: base → (fsGet fs q).isSome = true) :
    ∀ p, fsGet (writeNode fs base name n) p ≠ fsGet fs p → base <+: p := by
  cases n with
  | mk ty content children =>
    have hbp : base <+: resolve base (segs (sanitize name)) :=
      resolve_sanitize_extends base name
    cases children with
    | nil =>
      intro p h
      rw [writeNode_def_nil] at h
      by_cases hf : ty = some "folder"
      · rw [if_pos hf] at h
        rcases makedirs_changed h with ⟨hqp, hn⟩
        exact changed_key_under_base hb hqp hbp hn
      · rw [if_neg hf] at h
        by_cases hfi : ty = some "file"
        · rw [if_pos hfi] at h
          by_cases h1 : fsGet (makedirs fs (resolve base (segs (sanitize name))).dropLast) p
              = fsGet fs p
          · have h2 : fsGet (writeFileFS
                (makedirs fs (resolve base (segs (sanitize name))).dropLast)
                (resolve base (segs (sanitize name))) (content.getD "")) p
                ≠ fsGet (makedirs fs (resolve base (segs (sanitize name))).dropLast) p := by
              rw [h1]
              exact h
            have hp := writeFileFS_changed h2
            rw [hp]
            exact hbp
          · rcases makedirs_changed h1 with ⟨hqp, hn⟩
            exact changed_key_under_base hb
              (hqp.trans (List.dropLast_prefix _)) hbp hn
        · rw [if_neg hfi] at h
          exact absurd rfl h
    | cons a b r =>
      intro p h
      rw [writeNode_def_cons] at h
      by_cases hf : ty = some "folder"
      · rw [if_pos hf] at h
        by_cases h1 : fsGet (makedirs fs (resolve base (segs (sanitize name)))) p
            = fsGet fs p
        · have h2 : fsGet (writeTree (makedirs fs (resolve base (segs (sanitize name))))
              (resolve base (segs (sanitize name))) (VTree.cons a b r)) p
              ≠ fsGet (makedirs fs (resolve base (segs (sanitize name)))) p := by
            rw [h1]
            exact h
          have := writeTree_inside (makedirs fs (resolve base (segs (sanitize name))))
            (resolve base (segs (sanitize name))) (VTree.cons a b r)
            (makedirs_sets fs _) p h2
          exact hbp.trans this
        · rcases makedirs_changed h1 with ⟨hqp, hn⟩
          exact changed_key_under_base hb hqp hbp hn
      · rw [if_neg hf] at h
        by_cases hfi : ty = some "file"
        · rw [if_pos hfi] at h
          by_cases h1 : fsGet (makedirs fs (resolve base (segs (sanitize name))).dropLast) p
              = fsGet fs p
          · have h2 : fsGet (writeFileFS
                (makedirs fs (resolve base (segs (sanitize name))).dropLast)
                (resolve base (segs (sanitize name))) (content.getD "")) p
                ≠ fsGet (makedirs fs (resolve base (segs (sanitize name))).dropLast) p := by
              rw [h1]
              exact h
            have hp := writeFileFS_changed h2
            rw [hp]
            exact hbp
          · rcases makedirs_changed h1 with ⟨hqp, hn⟩
            exact changed_key_under_base hb
              (hqp.trans (List.dropLast_prefix _)) hbp hn
        · rw [if_neg hfi] at h
          exact absurd rfl h

theorem writeTree_inside (fs : FS) (base : FPath) (t : VTree)
    (hb : ∀ q, q <+: base → (fsGet fs q).isSome = true) :
    ∀ p, fsGet (writeTree fs base t) p ≠ fsGet fs p → base <+: p := by
  cases t with
  | nil =>
    intro p h
    exact absurd rfl h
  | cons name node rest =>
    intro p h
    rw [writeTree_cons] at h
    by_cases h1 : fsGet (writeNode fs base name node) p = fsGet fs p
    · have h2 : fsGet (writeTree (writeNode fs base name node) base rest) p
          ≠ fsGet (writeNode fs base name node) p := by
        rw [h1]
        exact h
      have hb2 : ∀ q, q <+: base → (fsGet (writeNode fs base name node) q).isSome = true :=
        fun q hq => ext_isSome (writeNode_ext fs base name node) q (hb q hq)
      exact writeTree_inside (writeNode fs base name node) base rest hb2 p h2
    · exact writeNode_inside fs base name node hb p h1
end

/-- C1: for every virtual file tree, including every tree whose entry
names contain `..` segments or leading path separators,
write_project_to_disk creates directories and files only at paths
inside the destination root: every path whose disk binding differs
after materialization extends the destination root (each entry name has
its `..` occurrences stripped and its leading separators removed before
being joined under the root, so no write lands outside the sandbox
directory).  The hypothesis says that the destination root and its
ancestors exist on disk, which holds after `tempfile.mkdtemp` created
the root. -/
theorem c1_materialization_inside_root (fs : FS) (base : FPath) (t : VTree)
    (hb : ∀ q ∈ base.inits, (fsGet fs q).isSome = true) :
    ∀ p, fsGet (writeTree fs base t) p ≠ fsGet fs p → base <+: p :=
  writeTree_inside fs base t (fun q hq => hb q ((List.mem_inits q base).mpr hq))

def c1fs : FS := [([], FSEntry.dir), (["sandbox"], FSEntry.dir)]

def c1tree : VTree :=
  VTree.cons "../../etc/passwd" (VNode.mk (some "file") (some "pwned") VTree.nil)
    VTree.nil

/-- Witness for C1: the escaping name `../../etc/passwd` is sanitized
to `etc/passwd`, and the changed path stays inside the root. -/
theorem c1_materialization_inside_root_witness :
    (["sandbox"] : FPath) <+: ["sandbox", "etc", "passwd"] :=
  c1_materialization_inside_root c1fs ["sandbox"] c1tree (by decide)
    ["sandbox", "etc", "passwd"] (by decide)

/-! ## C2: exact mirroring for well-formed trees -/

/-- A plain entry name: non-empty, without a slash, without two
consecutive dots (so that sanitization leaves it unchanged) and not the
special name `.`. -/
def goodName (s : String) : Bool :=
  !s.data.isEmpty && ddFree s.data && !s.data.contains '/' && !(s == ".")

theorem stripDotDot_of_ddFree (l : List Char) (h : ddFree l = true) :
    stripDotDot l = l := by
  induction l using stripDotDot.induct with
  | case1 => rfl
  | case2 c => rfl
  | case3 c d rest hcd ih =>
    rw [ddFree] at h
    simp [hcd.1, hcd.2] at h
  | case4 c d rest hcd ih =>
    rw [stripDotDot, if_neg hcd]
    rw [ddFree, Bool.and_eq_true] at h
    rw [ih h.2]

theorem lstripSlash_of_no_slash (l : List Char) (h : l.contains '/' = false) :
    lstripSlash l = l := by
  cases l with
  | nil => rfl
  | cons c t =>
    rw [lstripSlash]
    have hc : c ≠ '/' := by
      intro hc
      subst hc
      simp [List.contains_cons] at h
    rw [if_neg hc]

theorem segsOf_no_slash (l : List Char) (h : l.contains '/' = false) :
    segsOf l = [l] := by
  induction l with
  | nil => rfl
  | cons c t ih =>
    rw [List.contains_cons, Bool.or_eq_false_iff] at h
    have hc : c ≠ '/' := by
      intro hc
      subst hc
      simp at h
    rw [segsOf, if_neg hc, ih h.2, consHead]

theorem goodName_sanitize (s : String) (h : goodName s = true) :
    sanitize s = s := by
  rw [goodName] at h
  simp only [Bool.and_eq_true] at h
  rw [sanitize, stripDotDot_of_ddFree s.data h.1.1.2,
    lstripSlash_of_no_slash s.data (by simpa using h.1.2)]

theorem goodName_path (base : FPath) (s : String) (h : goodName s = true) :
    resolve base (segs (sanitize s)) = base ++ [s] := by
  have hg := h
  rw [goodName] at hg
  simp only [Bool.and_eq_true] at hg
  rw [goodName_sanitize s h]
  have hsegs : segs s = [s] := by
    rw [segs, segsOf_no_slash s.data (by simpa using hg.1.2)]
    rfl
  rw [hsegs, resolve]
  have hne2 : s ≠ ".." := by
    intro he
    rw [he] at hg
    exact absurd hg.1.1.2 (by decide)
  have hne0 : s ≠ "" := by
    intro he
    rw [he] at hg
    exact absurd hg.1.1.1 (by decide)
  have hne1 : s ≠ "." := by
    intro he
    rw [he] at hg
    exact absurd hg.2 (by decide)
  rw [if_neg hne2, if_neg (not_or.mpr ⟨hne0, hne1⟩), resolve]

/-- The names at the top level of a virtual tree. -/
def treeNames : VTree → List String
  | VTree.nil => []
  | VTree.cons name _ rest => name :: treeNames rest

mutual
/-- Well-formedness of a node for the exact-mirror theorem: the `type`
field is `folder` with well-formed children, or `file` carrying a
content string. -/
def wfNode : VNode → Bool
  | VNode.mk ty content children =>
    (ty == some "folder" && wfTree children) ||
    (ty == some "file" && content.isSome)

/-- Well-formedness of a virtual tree: every entry name is a plain
name, names do not repeat at one level (Python dict keys are unique),
and every node is well-formed. -/
def wfTree : VTree → Bool
  | VTree.nil => true
  | VTree.cons name node rest =>
    goodName name && !(treeNames rest).contains name && wfNode node && wfTree rest
end

mutual
/-- The per-node mirror mapping, following the specification's words
with the discriminator the code actually uses (the `type` field): a
folder node becomes a directory at `base ++ [name]` with its children
mirrored below it, a file node becomes a file at `base ++ [name]`
holding its content string, and nothing else is written. -/
def mirrorNode (fs : FS) (base : FPath) (name : String) (n : VNode) : FS :=
  match n with
  | VNode.mk ty content children =>
    if ty = some "folder" then
      match children with
      | VTree.nil => mkdirOne fs (base ++ [name])
      | VTree.cons a b r =>
        mirrorTree (mkdirOne fs (base ++ [name])) (base ++ [name]) (VTree.cons a b r)
    else if ty = some "file" then
      writeFileFS fs (base ++ [name]) (content.getD "")
    else fs

/-- The mirror of a whole virtual tree under a base directory. -/
def mirrorTree (fs : FS) (base : FPath) (t : VTree) : FS :=
  match t with
  | VTree.nil => fs
  | VTree.cons name node rest => mirrorTree (mirrorNode fs base name node) base rest
end

theorem mirrorNode_def_nil (fs : FS) (base : FPath) (name : String)
    (ty content : Option String) :
    mirrorNode fs base name (VNode.mk ty content VTree.nil) =
      (if ty = some "folder" then mkdirOne fs (base ++ [name])
      else if ty = some "file" then writeFileFS fs (base ++ [name]) (content.getD "")
      else fs) := rfl

theorem mirrorNode_def_cons (fs : FS) (base : FPath) (name : String)
    (ty content : Option String) (a : String) (b : VNode) (r : VTree) :
    mirrorNode fs base name (VNode.mk ty content (VTree.cons a b r)) =
      (if ty = some "folder" then
        mirrorTree (mkdirOne fs (base ++ [name])) (base ++ [name]) (VTree.cons a b r)
      else if ty = some "file" then writeFileFS fs (base ++ [name]) (content.getD "")
      else fs) := rfl

theorem mirrorTree_cons (fs : FS) (base : FPath) (name : String)
    (node : VNode) (rest : VTree) :
    mirrorTree fs base (VTree.cons name node rest) =
      mirrorTree (mirrorNode fs base name node) base rest := rfl

mutual
theorem mirrorNode_ext (fs : FS) (base : FPath) (name : String) (n : VNode) :
    ∃ l, mirrorNode fs base name n = l ++ fs := by
  cases n with
  | mk ty content children =>
    cases children with
    | nil =>
      rw [mirrorNode_def_nil]
      by_cases hf : ty = some "folder"
      · rw [if_pos hf]
        exact mkdirOne_ext fs _
      · rw [if_neg hf]
        by_cases hfi : ty = some "file"
        · rw [if_pos hfi]
          exact writeFileFS_ext _ _ _
        · rw [if_neg hfi]
          exact ⟨[], rfl⟩
    | cons a b r =>
      rw [mirrorNode_def_cons]
      by_cases hf : ty = some "folder"
      · rw [if_pos hf]
        exact ext_trans (mkdirOne_ext fs _)
          (mirrorTree_ext (mkdirOne fs _) _ (VTree.cons a b r))
      · rw [if_neg hf]
        by_cases hfi : ty = some "file"
        · rw [if_pos hfi]
          exact writeFileFS_ext _ _ _
        · rw [if_neg hfi]
          exact ⟨[], rfl⟩

theorem mirrorTree_ext (fs : FS) (base : FPath) (t : VTree) :
    ∃ l, mirrorTree fs base t = l ++ fs := by
  cases t with
  | nil => exact ⟨[], rfl⟩
  | cons name node rest =>
    rw [mirrorTree_cons]
    exact ext_trans (mirrorNode_ext fs base name node)
      (mirrorTree_ext (mirrorNode fs base name node) base rest)
end

theorem foldl_mkdirOne_noop (ps : List FPath) (fs : FS)
    (h : ∀ q ∈ ps, (fsGet fs q).isSome = true) : ps.foldl mkdirOne fs = fs := by
  induction ps with
  | nil => rfl
  | cons p ps ih =>
    rw [List.foldl_cons]
    have hp : mkdirOne fs p = fs := by
      rw [mkdirOne, if_pos (h p (List.mem_cons_self p ps))]
    rw [hp]
    exact ih (fun q hq => h q (List.mem_cons_of_mem p hq))

theorem inits_concat (base : FPath) (s : String) :
    (base ++ [s]).inits = base.inits ++ [base ++ [s]] := by
  rw [List.inits_append]
  rfl

theorem makedirs_base_noop (fs : FS) (base : FPath)
    (hb : ∀ q, q <+: base → (fsGet fs q).isSome = true) :
    makedirs fs base = fs :=
  foldl_mkdirOne_noop base.inits fs
    (fun q hq => hb q ((List.mem_inits q base).mp hq))

theorem makedirs_concat (fs : FS) (base : FPath) (s : String)
    (hb : ∀ q, q <+: base → (fsGet fs q).isSome = true) :
    makedirs fs (base ++ [s]) = mkdirOne fs (base ++ [s]) := by
  rw [makedirs, inits_concat, List.foldl_append,
    foldl_mkdirOne_noop base.inits fs
      (fun q hq => hb q ((List.mem_inits q base).mp hq))]
  rfl

theorem pres_concat (fs : FS) (base : FPath) (s : String)
    (hb : ∀ q, q <+: base → (fsGet fs q).isSome = true) :
    ∀ q, q <+: base ++ [s] →
      (fsGet (mkdirOne fs (base ++ [s])) q).isSome = true := by
  intro q hq
  rcases List.prefix_concat_iff.mp hq with h | h
  · subst h
    exact mkdirOne_sets fs _
  · exact ext_isSome (mkdirOne_ext fs _) q (hb q h)

mutual
theorem writeNode_eq_mirror (fs : FS) (base : FPath) (name : String) (n : VNode)
    (hb : ∀ q, q <+: base → (fsGet fs q).isSome = true)
    (hn : goodName name = true) (hw : wfNode n = true) :
    writeNode fs base name n = mirrorNode fs base name n := by
  cases n with
  | mk ty content children =>
    have hpath : resolve base (segs (sanitize name)) = base ++ [name] :=
      goodName_path base name hn
    rw [wfNode, Bool.or_eq_true, Bool.and_eq_true, Bool.and_eq_true] at hw
    cases children with
    | nil =>
      rw [writeNode_def_nil, mirrorNode_def_nil, hpath]
      rcases hw with ⟨hty, _⟩ | ⟨hty, _⟩
      · rw [if_pos (eq_of_beq hty), if_pos (eq_of_beq hty)]
        exact makedirs_concat fs base name hb
      · have hne : ty ≠ some "folder" := by
          rw [eq_of_beq hty]
          decide
        rw [if_neg hne, if_neg hne, if_pos (eq_of_beq hty), if_pos (eq_of_beq hty),
          List.dropLast_concat, makedirs_base_noop fs base hb]
    | cons a b r =>
      rw [writeNode_def_cons, mirrorNode_def_cons, hpath]
      rcases hw with ⟨hty, hch⟩ | ⟨hty, _⟩
      · rw [if_pos (eq_of_beq hty), if_pos (eq_of_beq hty),
          makedirs_concat fs base name hb]
        exact writeTree_eq_mirror (mkdirOne fs (base ++ [name])) (base ++ [name])
          (VTree.cons a b r) (pres_concat fs base name hb) hch
      · have hne : ty ≠ some "folder" := by
          rw [eq_of_beq hty]
          decide
        rw [if_neg hne, if_neg hne, if_pos (eq_of_beq hty), if_pos (eq_of_beq hty),
          List.dropLast_concat, makedirs_base_noop fs base hb]

theorem writeTree_eq_mirror (fs : FS) (base : FPath) (t : VTree)
    (hb : ∀ q, q <+: base → (fsGet fs q).isSome = true)
    (hw : wfTree t = true) :
    writeTree fs base t = mirrorTree fs base t := by
  cases t with
  | nil => rfl
  | cons name node rest =>
    rw [wfTree, Bool.and_eq_true, Bool.and_eq_true, Bool.and_eq_true] at hw
    rw [writeTree_cons, mirrorTree_cons,
      writeNode_eq_mirror fs base name node hb hw.1.1.1 hw.1.2]
    exact writeTree_eq_mirror (mirrorNode fs base name node) base rest
      (fun q hq => ext_isSome (mirrorNode_ext fs base name node) q (hb q hq))
      hw.2
end

mutual
/-- The wire-format mapping exactly as the specification clause of C2
words it, for comparison with the code: a node that carries a `children`
field is a folder and becomes a directory with its children mirrored
below it; otherwise it is a file carrying a `content` string, written
with that content. -/
def claimMirrorNode (fs : FS) (base : FPath) (name : String) (n : VNode) : FS :=
  match n with
  | VNode.mk _ content children =>
    match children with
    | VTree.nil => writeFileFS fs (base ++ [name]) (content.getD "")
    | VTree.cons a b r =>
      claimMirrorTree (mkdirOne fs (base ++ [name])) (base ++ [name]) (VTree.cons a b r)

/-- The specification-worded mirror of a whole tree. -/
def claimMirrorTree (fs : FS) (base : FPath) (t : VTree) : FS :=
  match t with
  | VTree.nil => fs
  | VTree.cons name node rest =>
    claimMirrorTree (claimMirrorNode fs base name node) base rest
end

def c2fs : FS := [([], FSEntry.dir), (["w"], FSEntry.dir)]

def c2badtree : VTree :=
  VTree.cons "note.txt" (VNode.mk none (some "hello") VTree.nil) VTree.nil

/-- Counterexample for C2 as stated: under the wire format the claim
quotes, the node `{"content": "hello"}` (no `children` field) is a file
and must be materialized with content `hello`; the code discriminates
on the `type` field instead, so write_project_to_disk skips the node
and writes nothing. -/
theorem c2_counterexample :
    writeTree c2fs ["w"] c2badtree = c2fs ∧
    fsGet (claimMirrorTree c2fs ["w"] c2badtree) ["w", "note.txt"]
      = some (FSEntry.file "hello") ∧
    writeTree c2fs ["w"] c2badtree ≠ claimMirrorTree c2fs ["w"] c2badtree := by
  decide

/-- C2 (amended): for every virtual file tree whose entry names are
plain names (no `..`, no separators) and whose nodes carry the `type`
discriminator the code reads — `folder` nodes with well-formed
children, `file` nodes with a `content` string — materialization writes
a structure that exactly mirrors the tree: every folder node becomes a
directory, every file node becomes a file with the node's content, and
nothing else is written (the disk state equals the mirror mapping). -/
theorem c2_materialization_mirrors (fs : FS) (base : FPath) (t : VTree)
    (hb : ∀ q ∈ base.inits, (fsGet fs q).isSome = true)
    (hw : wfTree t = true) :
    writeTree fs base t = mirrorTree fs base t :=
  writeTree_eq_mirror fs base t
    (fun q hq => hb q ((List.mem_inits q base).mpr hq)) hw

def c2wfs : FS := [([], FSEntry.dir), (["w"], FSEntry.dir)]

def c2wtree : VTree :=
  VTree.cons "app" (VNode.mk (some "folder") none
    (VTree.cons "app.py" (VNode.mk (some "file") (some "print(1)") VTree.nil)
      VTree.nil))
    VTree.nil

/-- Witness for the amended C2 at a concrete two-level tree. -/
theorem c2_materialization_mirrors_witness :
    writeTree c2wfs ["w"] c2wtree = mirrorTree c2wfs ["w"] c2wtree :=
  c2_materialization_mirrors c2wfs ["w"] c2wtree (by decide) (by decide)

/-! ## The materialized project tree and find_project_root

The directory tree that materialization leaves on disk, as
run_project's detection logic sees it: each directory holds a listing
of files (name and contents, in listing order) and of subdirectories. -/

mutual
inductive FTree where
  | mk (files : List (String × String)) (dirs : FDirs)

inductive FDirs where
  | nil : FDirs
  | fcons (name : String) (t : FTree) (rest : FDirs) : FDirs
end

def FTree.files : FTree → List (String × String)
  | FTree.mk fls _ => fls

def FTree.dirs : FTree → FDirs
  | FTree.mk _ ds => ds

def FDirs.toList : FDirs → List (String × FTree)
  | FDirs.nil => []
  | FDirs.fcons n t r => (n, t) :: r.toList

mutual
/-- Model of `os.walk(start)` in its default top-down order: the start
directory is yielded first, then the walk of each subdirectory in
listing order (depth-first).  Paths are relative to the walked root. -/
def walk : FTree → List (FPath × FTree)
  | FTree.mk fls ds => ([], FTree.mk fls ds) :: walkDirs ds

/-- The walks of a directory listing, concatenated in order. -/
def walkDirs : FDirs → List (FPath × FTree)
  | FDirs.nil => []
  | FDirs.fcons n c rest =>
    (walk c).map (fun pr => (n :: pr.1, pr.2)) ++ walkDirs rest
end

/-- A directory listing contains a recognized manifest: the two
membership tests of find_project_root (lines 174 and 177). -/
def hasManifest (t : FTree) : Bool :=
  (t.files.map Prod.fst).contains "requirements.txt" ||
  (t.files.map Prod.fst).contains "package.json"

/-- Model of find_project_root (preview_server.py lines 171-180):
iterate `os.walk` in top-down order and return the first directory
whose file listing contains requirements.txt or package.json, together
with its subtree; `none` when no directory matches (the code then
raises the `Could not find a project root` error). -/
def find_project_root (t : FTree) : Option (FPath × FTree) :=
  (walk t).find? (fun pr => hasManifest pr.2)

/-- The directory reachable at a relative path inside a materialized
tree. -/
inductive Subdir : FTree → FPath → FTree → Prop where
  | here (t : FTree) : Subdir t [] t
  | child {t : FTree} {n : String} {c : FTree} {p : FPath} {s : FTree} :
      (n, c) ∈ t.dirs.toList → Subdir c p s → Subdir t (n :: p) s

theorem walk_def (fls : List (String × String)) (ds : FDirs) :
    walk (FTree.mk fls ds) = ([], FTree.mk fls ds) :: walkDirs ds := rfl

mutual
theorem mem_walk_sub : ∀ (t : FTree) (p : FPath) (s : FTree),
    (p, s) ∈ walk t → Subdir t p s := by
  intro t p s h
  cases t with
  | mk fls ds =>
    rw [walk_def] at h
    rcases List.mem_cons.mp h with h | h
    · injection h with h1 h2
      subst h1
      subst h2
      exact Subdir.here _
    · rcases mem_walkDirs_sub ds p s h with ⟨n, c, p2, hp, hmem, hsub⟩
      subst hp
      exact Subdir.child hmem hsub

theorem mem_walkDirs_sub : ∀ (r : FDirs) (p : FPath) (s : FTree),
    (p, s) ∈ walkDirs r →
      ∃ n c p2, p = n :: p2 ∧ (n, c) ∈ r.toList ∧ Subdir c p2 s := by
  intro r p s h
  cases r with
  | nil => cases h
  | fcons n c rest =>
    rw [walkDirs] at h
    rcases List.mem_append.mp h with h | h
    · rcases List.mem_map.mp h with ⟨pr, hpr, heq⟩
      obtain ⟨p1, s1⟩ := pr
      injection heq with h1 h2
      subst h2
      exact ⟨n, c, p1, h1.symm, List.mem_cons_self _ _,
        mem_walk_sub c p1 _ hpr⟩
    · rcases mem_walkDirs_sub rest p s h with ⟨n2, c2, p2, hp, hmem, hsub⟩
      exact ⟨n2, c2, p2, hp, List.mem_cons_of_mem _ hmem, hsub⟩
end

theorem walkDirs_of_mem : ∀ (r : FDirs) (n : String) (c : FTree),
    (n, c) ∈ r.toList → ∀ (p : FPath) (s : FTree), (p, s) ∈ walk c →
      (n :: p, s) ∈ walkDirs r := by
  intro r
  cases r with
  | nil =>
    intro n c h
    cases h
  | fcons m t rest =>
    intro n c h p s hw
    rw [walkDirs]
    rcases List.mem_cons.mp h with h | h
    · injection h with h1 h2
      subst h1
      subst h2
      exact List.mem_append_left _ (List.mem_map.mpr ⟨(p, s), hw, rfl⟩)
    · exact List.mem_append_right _ (walkDirs_of_mem rest n c h p s hw)

theorem sub_mem_walk {t : FTree} {p : FPath} {s : FTree} (h : Subdir t p s) :
    (p, s) ∈ walk t := by
  induction h with
  | here t =>
    cases t with
    | mk fls ds =>
      rw [walk_def]
      exact List.mem_cons_self _ _
  | child hmem hsub ih =>
    rename_i t n c p2 s2
    cases t with
    | mk fls ds =>
      rw [walk_def]
      exact List.mem_cons_of_mem _ (walkDirs_of_mem ds n c hmem p2 s2 ih)

def c3deep : FTree :=
  FTree.mk []
    (FDirs.fcons "a"
      (FTree.mk []
        (FDirs.fcons "sub" (FTree.mk [("requirements.txt", "flask")] FDirs.nil)
          FDirs.nil))
      (FDirs.fcons "b" (FTree.mk [("requirements.txt", "flask")] FDirs.nil)
        FDirs.nil))

/-- Counterexample for C3 as stated: `os.walk` is depth-first, not
breadth-order.  With a manifest at depth two inside the first
subdirectory `a` and another at depth one in the later sibling `b`,
find_project_root returns the deeper directory `a/sub` even though the
strictly shallower directory `b` also holds a manifest, so the
shallowest match does not win. -/
theorem c3_counterexample :
    (find_project_root c3deep).map Prod.fst = some ["a", "sub"] ∧
    Subdir c3deep ["b"] (FTree.mk [("requirements.txt", "flask")] FDirs.nil) ∧
    hasManifest (FTree.mk [("requirements.txt", "flask")] FDirs.nil) = true ∧
    (["b"] : FPath).length < (["a", "sub"] : FPath).length := by
  refine ⟨by decide, ?_, by decide, by decide⟩
  exact Subdir.child
    (List.Mem.tail _ (List.Mem.head _))
    (Subdir.here _)

/-- C3 (amended): the runtime detector selects as execution directory
the first directory in top-down depth-first (`os.walk`) order whose
listing contains requirements.txt or package.json — so a match in an
earlier subtree wins even over a strictly shallower match in a later
subtree — and it fails with the `no project root found` error exactly
when no directory reachable in the tree contains such a manifest. -/
theorem c3_find_root_first_dfs (t : FTree) :
    (find_project_root t = none ↔
      ∀ p s, Subdir t p s → hasManifest s = false) ∧
    (∀ p s, find_project_root t = some (p, s) →
      Subdir t p s ∧ hasManifest s = true ∧
      ∃ l1 l2, walk t = l1 ++ (p, s) :: l2 ∧
        ∀ pr ∈ l1, hasManifest pr.2 = false) := by
  constructor
  · constructor
    · intro hnone p s hsub
      have := List.find?_eq_none.mp hnone (p, s) (sub_mem_walk hsub)
      simpa using this
    · intro hall
      apply List.find?_eq_none.mpr
      intro pr hpr hman
      obtain ⟨p, s⟩ := pr
      have := hall p s (mem_walk_sub t p s hpr)
      rw [this] at hman
      cases hman
  · intro p s hfind
    rcases List.find?_eq_some.mp hfind with ⟨hman, l1, l2, hsplit, hprev⟩
    refine ⟨mem_walk_sub t p s ?_, hman, l1, l2, hsplit, ?_⟩
    · rw [hsplit]
      exact List.mem_append_right _ (List.mem_cons_self _ _)
    · intro pr hpr
      have := hprev pr hpr
      simpa using this

/-! ## Runtime detection (run_project, preview_server.py lines 189-310) -/

/-- Boolean prefix test on character lists. -/
def isPre : List Char → List Char → Bool
  | [], _ => true
  | _ :: _, [] => false
  | a :: as, b :: bs => a == b && isPre as bs

/-- Model of Python's substring test `pat in s` on character lists. -/
def containsSub (pat : List Char) : List Char → Bool
  | [] => pat.isEmpty
  | c :: t => isPre pat (c :: t) || containsSub pat t

/-- Model of Python's substring test `pat in s`. -/
def containsS (pat s : String) : Bool := containsSub pat.data s.data

/-- First hit among alternative match attempts. -/
def firstSomeL : List (Option (List Char)) → Option (List Char)
  | [] => none
  | some x :: _ => some x
  | none :: rest => firstSomeL rest

/-- The lazy span `.*?` up to a closing backtick: the characters before
the first backtick, failing when a newline (which `.` does not match)
or the end of the text comes first. -/
def spanTo : List Char → Option (List Char)
  | [] => none
  | c :: t =>
    if c = '`' then some []
    else if c = '\n' then none
    else (spanTo t).map (c :: ·)

/-- Try one alternative of the command regexes at the position right
after an opening backtick: the literal prefix must follow, then a lazy
span up to the closing backtick; the captured group is the prefix plus
the span. -/
def matchAlt (lit : List Char) (l : List Char) : Option (List Char) :=
  if isPre lit l then (spanTo (l.drop lit.length)).map (lit ++ ·) else none

/-- Model of `re.search` for the alternations run on README.md: every
alternative starts with a backtick, so scan for the leftmost backtick
at which some alternative matches, trying the alternatives in pattern
order there. -/
def reSearch (alts : List (List Char)) : List Char → Option (List Char)
  | [] => none
  | c :: t =>
    if c = '`' then
      match firstSomeL (alts.map (fun a => matchAlt a t)) with
      | some r => some r
      | none => reSearch alts t
    else reSearch alts t

/-- The install-command alternatives of the regex at line 198. -/
def installAlts : List (List Char) :=
  ["pip install ".data, "npm install".data]

/-- The run-command alternatives of the regex at line 204. -/
def runAlts : List (List Char) :=
  ["streamlit run ".data, "npm run ".data, "flask run".data, "uvicorn ".data,
    "python ".data]

/-- The decimal digit characters. -/
def digitChar : Nat → Char
  | 0 => '0'
  | 1 => '1'
  | 2 => '2'
  | 3 => '3'
  | 4 => '4'
  | 5 => '5'
  | 6 => '6'
  | 7 => '7'
  | 8 => '8'
  | _ => '9'

/-- The decimal digits of a number, most significant first, with a
fuel argument making the recursion structural (so that it computes in
the kernel); the fuel `n + 1` of `natChars` always suffices since the
value shrinks by a factor of ten each step. -/
def natCharsAux : Nat → Nat → List Char
  | 0, _ => []
  | fuel + 1, n =>
    if n < 10 then [digitChar n]
    else natCharsAux fuel (n / 10) ++ [digitChar (n % 10)]

/-- The decimal digits of a number, most significant first (the
rendering of the port by Python's f-strings). -/
def natChars (n : Nat) : List Char := natCharsAux (n + 1) n

/-- The decimal rendering of the allocated port. -/
def portStr (p : Nat) : String := ⟨natChars p⟩

/-- Model of Python's str.lower(). -/
def lowerStr (s : String) : String := ⟨s.data.map Char.toLower⟩

/-- A listing entry ending in `.py` (`f.endswith('.py')`). -/
def endsWithPy (f : String) : Bool := List.isSuffixOf ".py".data f.data

/-- Look a file's contents up in a materialized directory listing. -/
def lookupFile (t : FTree) (nm : String) : Option String :=
  (t.files.find? (fun pr => pr.1 == nm)).map (fun pr => pr.2)

/-- Model of os.listdir on the execution directory: the file names and
the subdirectory names, in listing order. -/
def listdirOf (t : FTree) : List String :=
  t.files.map Prod.fst ++ t.dirs.toList.map Prod.fst

/-- The host/port flags appended to a run command recognized in the
README (lines 208-213) when the command does not already carry them. -/
def appendPortFlags (rc : String) (port : Nat) : String :=
  if containsS "streamlit" rc && !containsS "--server.port" rc then
    rc ++ " --server.port " ++ portStr port ++
      " --server.address 127.0.0.1 --server.headless true"
  else if containsS "flask" rc && !containsS "--port" rc then
    rc ++ " --host 127.0.0.1 --port " ++ portStr port
  else if containsS "uvicorn" rc && !containsS "--port" rc then
    rc ++ " --host 127.0.0.1 --port " ++ portStr port
  else rc

/-- The README.md step of detection (lines 190-226): when README.md is
a file of the execution directory, search its text for an install
command and a run command, append host/port flags to a recognized run
command, and mark the PORT environment variable for injection when the
install command mentions npm.  A parse exception resets both commands
(lines 221-224), which coincides with the no-README result. -/
def readmeStep (exec : FTree) (port : Nat) :
    Option String × Option String × Bool :=
  match lookupFile exec "README.md" with
  | none => (none, none, false)
  | some content =>
    let inst := (reSearch installAlts content.data).map (fun l => (⟨l⟩ : String))
    let run := (reSearch runAlts content.data).map
      (fun l => appendPortFlags ⟨l⟩ port)
    (inst, run,
      match inst with
      | some ic => containsS "npm" ic
      | none => false)

/-- The generic-Python entry point search (lines 256-268): the first of
main.py, app.py, run.py, server.py present among the `.py` entries,
else the first `.py` entry. -/
def firstCandidate (pyFiles : List String) : Option String :=
  match ["main.py", "app.py", "run.py", "server.py"].find?
      (fun c => pyFiles.contains c) with
  | some c => some c
  | none => pyFiles.head?

/-- The Python-manifest run-command heuristics (lines 238-274), used
when no run command came from the README: dispatch on the framework
names found in requirements.txt, first match winning, deriving the
entry file from the `.py` entries of the directory listing. -/
def pythonRun (exec : FTree) (port : Nat) : Option String :=
  let reqs := lowerStr ((lookupFile exec "requirements.txt").getD "")
  let pyFiles := (listdirOf exec).filter endsWithPy
  if containsS "streamlit" reqs then
    match pyFiles with
    | [] => none
    | f :: _ =>
      some ("streamlit run " ++ f ++ " --server.port " ++ portStr port ++
        " --server.address 127.0.0.1 --server.headless true")
  else if containsS "flask" reqs then
    some ("flask run --host 127.0.0.1 --port " ++ portStr port)
  else if containsS "fastapi" reqs then
    some ("uvicorn main:app --host 127.0.0.1 --port " ++ portStr port ++
      " --reload")
  else
    match firstCandidate pyFiles with
    | some f => some ("python " ++ f)
    | none => none

/-- A successful detection: the optional install command, the run
command, and whether a PORT environment variable is injected into the
child's environment. -/
structure Detected where
  install : Option String
  run : String
  envPort : Bool
deriving DecidableEq

/-- The outcome of the detection phase: no project root (HTTPException
400 at line 185), no run command (HTTPException 400 at line 310), an
exception escaping the detection code (for example a JSON decode
error), or a successful detection. -/
inductive DetectResult where
  | noRoot : DetectResult
  | noRun : DetectResult
  | exc : DetectResult
  | ok (d : Detected) : DetectResult
deriving DecidableEq

/-- Model of the detection phase of run_project (lines 171-310): find
the project root, read commands from README.md, fall back to the
manifest heuristics, and fail when no run command can be derived.
`pkgParse` stands for the outcome of `json.load` on package.json
followed by `.get("scripts", {})` — the JSON library is outside the
modelled code, so its result (the script names, or `none` for a raised
decode error, modelled as `exc`) is an input of the model. -/
def detectCmds (t : FTree) (port : Nat) (pkgParse : Option (List String)) :
    DetectResult :=
  match find_project_root t with
  | none => DetectResult.noRoot
  | some (_, exec) =>
    let r0 := readmeStep exec port
    let inst0 := r0.1
    let run0 := r0.2.1
    let ep0 := r0.2.2
    if inst0.isNone || run0.isNone then
      if (lookupFile exec "requirements.txt").isSome then
        let inst := some (inst0.getD "pip install -r requirements.txt")
        match run0 with
        | some rc => DetectResult.ok ⟨inst, rc, ep0⟩
        | none =>
          match pythonRun exec port with
          | some rc => DetectResult.ok ⟨inst, rc, ep0⟩
          | none => DetectResult.noRun
      else if (lookupFile exec "package.json").isSome then
        let inst := some (inst0.getD "npm install")
        match run0 with
        | some rc => DetectResult.ok ⟨inst, rc, true⟩
        | none =>
          match pkgParse with
          | none => DetectResult.exc
          | some keys =>
            if keys.contains "dev" then
              DetectResult.ok ⟨inst, "npm run dev", true⟩
            else if keys.contains "start" then
              DetectResult.ok ⟨inst, "npm run start", true⟩
            else DetectResult.noRun
      else
        match run0 with
        | some rc => DetectResult.ok ⟨inst0, rc, ep0⟩
        | none => DetectResult.noRun
    else
      match run0 with
      | some rc => DetectResult.ok ⟨inst0, rc, ep0⟩
      | none => DetectResult.noRun

/-! ## C7: the streamlit scenario -/

def c7tree : FTree :=
  FTree.mk []
    (FDirs.fcons "app"
      (FTree.mk [("requirements.txt", "streamlit\n"),
        ("app.py", "print(\x27hi\x27)")] FDirs.nil)
      FDirs.nil)

/-- The number of positions at which a pattern occurs in a character
list (overlapping occurrences counted). -/
def countOcc (pat : List Char) : List Char → Nat
  | [] => 0
  | c :: t => (if isPre pat (c :: t) then 1 else 0) + countOcc pat t

theorem countOcc_cons (pat : List Char) (c : Char) (t : List Char) :
    countOcc pat (c :: t) =
      (if isPre pat (c :: t) then 1 else 0) + countOcc pat t := rfl

theorem countOcc_cons_pos (pat : List Char) (c : Char) (t : List Char)
    (h : isPre pat (c :: t) = true) :
    countOcc pat (c :: t) = 1 + countOcc pat t := by
  rw [countOcc_cons, h]
  simp

theorem countOcc_cons_neg (pat : List Char) (c : Char) (t : List Char)
    (h : isPre pat (c :: t) = false) :
    countOcc pat (c :: t) = countOcc pat t := by
  rw [countOcc_cons, h]
  simp

theorem isPre_cons (a : Char) (as : List Char) (b : Char) (bs : List Char) :
    isPre (a :: as) (b :: bs) = (a == b && isPre as bs) := rfl

theorem countOcc_append_ne (pat : List Char) (p0 : Char) (pr : List Char)
    (hpat : pat = p0 :: pr) :
    ∀ (l1 : List Char), (∀ c ∈ l1, c ≠ p0) → ∀ (l2 : List Char),
      countOcc pat (l1 ++ l2) = countOcc pat l2 := by
  intro l1
  induction l1 with
  | nil =>
    intro _ l2
    rfl
  | cons c t ih =>
    intro h l2
    rw [List.cons_append]
    have hbe : (p0 == c) = false :=
      beq_eq_false_iff_ne.mpr (Ne.symm (h c (List.mem_cons_self c t)))
    have hpre : isPre pat (c :: (t ++ l2)) = false := by
      rw [hpat, isPre_cons, hbe, Bool.false_and]
    rw [countOcc_cons_neg pat c (t ++ l2) hpre]
    exact ih (fun x hx => h x (List.mem_cons_of_mem c hx)) l2

theorem digitChar_ne_dash (n : Nat) : digitChar n ≠ '-' := by
  unfold digitChar
  split <;> decide

theorem natCharsAux_ne_dash (fuel : Nat) :
    ∀ (n : Nat), ∀ c ∈ natCharsAux fuel n, c ≠ '-' := by
  induction fuel with
  | zero =>
    intro n c hc
    cases hc
  | succ fuel ih =>
    intro n c hc
    rw [natCharsAux] at hc
    by_cases h : n < 10
    · rw [if_pos h] at hc
      rw [List.mem_singleton.mp hc]
      exact digitChar_ne_dash n
    · rw [if_neg h] at hc
      rcases List.mem_append.mp hc with hc | hc
      · exact ih (n / 10) c hc
      · rw [List.mem_singleton.mp hc]
        exact digitChar_ne_dash _

theorem natChars_ne_dash (n : Nat) : ∀ c ∈ natChars n, c ≠ '-' :=
  natCharsAux_ne_dash (n + 1) n

/-- C7: for the scenario tree `app/{requirements.txt: "streamlit\n",
app.py}` with no README and allocated port p, detection yields install
`pip install -r requirements.txt` and run `streamlit run app.py
--server.port p --server.address 127.0.0.1 --server.headless true`
with no PORT environment injection, and the port flag occurs in the run
command exactly once.  Detection is modelled as a pure function of the
tree and the port, so re-running it on the same tree with the same port
yields the same commands definitionally. -/
theorem c7_streamlit_scenario (p : Nat) (pk : Option (List String)) :
    detectCmds c7tree p pk =
      DetectResult.ok ⟨some "pip install -r requirements.txt",
        "streamlit run app.py --server.port " ++ portStr p ++
          " --server.address 127.0.0.1 --server.headless true", false⟩ ∧
    countOcc "--server.port".data
      ("streamlit run app.py --server.port " ++ portStr p ++
        " --server.address 127.0.0.1 --server.headless true").data = 1 := by
  constructor
  · have h0 : detectCmds c7tree p pk =
        DetectResult.ok ⟨some "pip install -r requirements.txt",
          "streamlit run " ++ "app.py" ++ " --server.port " ++ portStr p ++
            " --server.address 127.0.0.1 --server.headless true", false⟩ := rfl
    rw [h0]
    rw [show ("streamlit run " ++ "app.py" ++ " --server.port " : String) =
      "streamlit run app.py --server.port " from by decide]
  · rw [String.data_append, String.data_append,
      show (portStr p).data = natChars p from rfl, List.append_assoc,
      show ("streamlit run app.py --server.port ").data =
        "streamlit run app.py ".data ++ "--server.port ".data from by decide,
      List.append_assoc,
      countOcc_append_ne "--server.port".data '-' "-server.port".data
        (by decide) "streamlit run app.py ".data (by decide),
      show "--server.port ".data ++
          (natChars p ++ " --server.address 127.0.0.1 --server.headless true".data)
        = '-' :: ("-server.port ".data ++
          (natChars p ++ " --server.address 127.0.0.1 --server.headless true".data))
        from rfl,
      countOcc_cons_pos "--server.port".data '-'
        ("-server.port ".data ++
          (natChars p ++ " --server.address 127.0.0.1 --server.headless true".data))
        rfl,
      show "-server.port ".data ++
          (natChars p ++ " --server.address 127.0.0.1 --server.headless true".data)
        = '-' :: ("server.port ".data ++
          (natChars p ++ " --server.address 127.0.0.1 --server.headless true".data))
        from rfl,
      countOcc_cons_neg "--server.port".data '-'
        ("server.port ".data ++
          (natChars p ++ " --server.address 127.0.0.1 --server.headless true".data))
        rfl,
      countOcc_append_ne "--server.port".data '-' "-server.port".data
        (by decide) "server.port ".data (by decide),
      countOcc_append_ne "--server.port".data '-' "-server.port".data
        (by decide) (natChars p) (natChars_ne_dash p),
      show countOcc "--server.port".data
        " --server.address 127.0.0.1 --server.headless true".data = 0 from by decide]

/-! ## C8: Node-style detection -/

def c8both : FTree :=
  FTree.mk []
    (FDirs.fcons "app"
      (FTree.mk [("requirements.txt", "flask\n"),
        ("package.json", "\x7b\"scripts\":\x7b\"dev\":\"vite\"\x7d\x7d")]
        FDirs.nil)
      FDirs.nil)

/-- Counterexample for C8 as stated: an execution directory holding
package.json (with a `dev` script) and no README-derived commands is,
by the claim's wording, a Node-style project, yet when requirements.txt
is also present run_project tests it first and derives the pip/flask
commands with no PORT injection — not `npm install` and `npm run dev`. -/
theorem c8_counterexample :
    detectCmds c8both 8002 (some ["dev"]) =
      DetectResult.ok ⟨some "pip install -r requirements.txt",
        "flask run --host 127.0.0.1 --port 8002", false⟩ ∧
    detectCmds c8both 8002 (some ["dev"]) ≠
      DetectResult.ok ⟨some "npm install", "npm run dev", true⟩ := by
  decide

/-- C8 (amended): for every project whose execution directory contains
package.json but no requirements.txt, and for which the README step
yields no commands, the detector sets the install command to
`npm install`, prefers the manifest's `dev` script — whenever `dev` is
among the script names the run command is `npm run dev`, whatever other
scripts (such as `start`) exist — and marks a PORT environment variable
equal to the allocated port for injection into the child's
environment. -/
theorem c8_node_detection (t : FTree) (port : Nat) (q : FPath) (exec : FTree)
    (keys : List String)
    (hfind : find_project_root t = some (q, exec))
    (hreadme : readmeStep exec port = (none, none, false))
    (hreq : (lookupFile exec "requirements.txt").isSome = false)
    (hpkg : (lookupFile exec "package.json").isSome = true)
    (hdev : keys.contains "dev" = true) :
    detectCmds t port (some keys) =
      DetectResult.ok ⟨some "npm install", "npm run dev", true⟩ := by
  unfold detectCmds
  rw [hfind]
  simp only [hreadme, hreq, hpkg, hdev, Option.isNone_none, Bool.or_self,
    if_true, Bool.false_eq_true, if_false, Option.getD_none]

def c8node : FTree :=
  FTree.mk []
    (FDirs.fcons "app"
      (FTree.mk [("package.json", "\x7b\"scripts\":\x7b\"dev\":\"vite\"\x7d\x7d")]
        FDirs.nil)
      FDirs.nil)

/-- Witness for the amended C8 at the scenario tree whose package.json
is `{"scripts":{"dev":"vite"}}`. -/
theorem c8_node_detection_witness :
    detectCmds c8node 8002 (some ["dev"]) =
      DetectResult.ok ⟨some "npm install", "npm run dev", true⟩ :=
  c8_node_detection c8node 8002 ["app"]
    (FTree.mk [("package.json", "\x7b\"scripts\":\x7b\"dev\":\"vite\"\x7d\x7d")]
      FDirs.nil)
    ["dev"] rfl rfl rfl rfl rfl

/-! ## The run lifecycle endpoints (run_project, stop_project)

The server state the endpoints touch is the `active_runs` registry and
the set of temporary directories existing on disk.  The process handle
is abstracted by the liveness input of the pipeline model; the orphan
cleanup of other dead runs (lines 147-156) only removes entries of
other identifiers and is omitted. -/

/-- An entry of the `active_runs` registry: the run identifier with its
port and temporary directory. -/
structure RunEntry where
  pid : String
  port : Nat
  tempDir : String
deriving DecidableEq

/-- An HTTP error response (fastapi HTTPException): status code and
detail string. -/
structure HttpErr where
  status : Nat
  detail : String
deriving DecidableEq

/-- The successful payload of /api/run: the preview URL and the run
identifier. -/
structure RunOk where
  url : String
  process_id : String
deriving DecidableEq

inductive RunResp where
  | ok (r : RunOk) : RunResp
  | err (e : HttpErr) : RunResp
deriving DecidableEq

/-- The server state: the run registry and the temporary directories on
disk. -/
structure SrvState where
  registry : List RunEntry
  dirs : List String
deriving DecidableEq

/-- Model of the /api/run endpoint (run_project, preview_server.py
lines 127-438).  Inputs beyond the state: the materialized tree; the
materialization outcome `matErr` (`some msg` when writing raised an
I/O error with message msg); the package.json parse oracle; the fresh
temporary directory name and the derived process id; the allocated
port; and `alive`, whether the spawned process exists and is alive at
the check after the three-second startup grace sleep (line 420).
Faithful to the code, the blanket `except Exception` handler at line
433 catches the inner HTTPException(400) raises of the detection phase
and re-raises status 500 with `str(e)` — which for an HTTPException is
`"{status_code}: {detail}"` — as the detail, after removing the
temporary directory; the dead-process path first runs cleanup_process
(dropping the registry entry, line 427) and its re-raised 500 is
wrapped the same way. -/
def run_project (st : SrvState) (tree : FTree) (matErr : Option String)
    (pkgParse : Option (List String)) (tempDir : String) (pid : String)
    (port : Nat) (alive : Bool) : RunResp × SrvState :=
  let dirs1 := st.dirs ++ [tempDir]
  match matErr with
  | some msg =>
    (RunResp.err ⟨500, msg⟩,
      ⟨st.registry, dirs1.filter (fun d => d != tempDir)⟩)
  | none =>
    match detectCmds tree port pkgParse with
    | DetectResult.noRoot =>
      (RunResp.err ⟨500,
        "400: Could not find a project root (requirements.txt or package.json)."⟩,
        ⟨st.registry, dirs1.filter (fun d => d != tempDir)⟩)
    | DetectResult.noRun =>
      (RunResp.err ⟨500, "400: Could not determine how to run the project."⟩,
        ⟨st.registry, dirs1.filter (fun d => d != tempDir)⟩)
    | DetectResult.exc =>
      (RunResp.err ⟨500, "json decode error"⟩,
        ⟨st.registry, dirs1.filter (fun d => d != tempDir)⟩)
    | DetectResult.ok _ =>
      let reg1 := ⟨pid, port, tempDir⟩ :: st.registry
      if alive then
        (RunResp.ok ⟨"http://127.0.0.1:" ++ portStr port, pid⟩, ⟨reg1, dirs1⟩)
      else
        (RunResp.err ⟨500,
          "500: Failed to start project - process died immediately"⟩,
          ⟨reg1.filter (fun e => e.pid != pid),
            dirs1.filter (fun d => d != tempDir)⟩)

def c4tree : FTree := FTree.mk [("app.py", "print(1)")] FDirs.nil

/-- C4 evaluated at its failing input: for a tree with no manifest
anywhere, the detection failure that line 185 raises as
HTTPException(status 400) is caught by the blanket `except Exception`
at line 433 and re-raised as HTTPException(500, str(e)), so the caller
receives a 5xx response wrapping the 400 message — not the user-facing
4xx the spec describes and the inner raise intends. -/
theorem c4_detection_error_surfaces_as_500 :
    (run_project ⟨[], []⟩ c4tree none none "t1" "run1" 8002 false).1 =
      RunResp.err ⟨500,
        "400: Could not find a project root (requirements.txt or package.json)."⟩ :=
  rfl

/-- C6: whenever detection succeeds but the spawned child is no longer
alive at the check after the startup grace period (it exited within the
grace period), the creation call reports failure with an error
response; no preview URL is returned for the dead run. -/
theorem c6_dead_child_reports_failure (st : SrvState) (tree : FTree)
    (pkgParse : Option (List String)) (tempDir pid : String) (port : Nat)
    (d : Detected) (hdet : detectCmds tree port pkgParse = DetectResult.ok d) :
    (run_project st tree none pkgParse tempDir pid port false).1 =
      RunResp.err ⟨500, "500: Failed to start project - process died immediately"⟩ := by
  unfold run_project
  rw [hdet]
  rfl

/-- Witness for C6: the streamlit scenario tree with a child that
died during the grace period. -/
theorem c6_dead_child_reports_failure_witness :
    (run_project ⟨[], []⟩ c7tree none none "t1" "run1" 8002 false).1 =
      RunResp.err ⟨500, "500: Failed to start project - process died immediately"⟩ :=
  c6_dead_child_reports_failure ⟨[], []⟩ c7tree none "t1" "run1" 8002
    ⟨some "pip install -r requirements.txt",
      "streamlit run app.py --server.port 8002 --server.address 127.0.0.1 --server.headless true",
      false⟩ (by decide)

theorem not_mem_filter_ne (l : List String) (x : String) :
    x ∉ l.filter (fun d => d != x) := by
  intro h
  have := (List.mem_filter.mp h).2
  simp at this

theorem mem_filter_pid (l : List RunEntry) (pid : String) :
    ∀ e ∈ l.filter (fun e => e.pid != pid), e.pid ≠ pid := by
  intro e he
  have := (List.mem_filter.mp he).2
  simpa using this

/-- C10: creation is atomic on failure: whenever /api/run answers with
an error response — materialization failed, detection found no root or
no runnable command, or the child was not alive after the startup grace
period — the registry holds no entry for the new run identifier and the
freshly created temporary directory is no longer on disk. -/
theorem c10_failed_creation_is_clean (st : SrvState) (tree : FTree)
    (matErr : Option String) (pkgParse : Option (List String))
    (tempDir pid : String) (port : Nat) (alive : Bool)
    (hfresh : ∀ e ∈ st.registry, e.pid ≠ pid) :
    ∀ e2, (run_project st tree matErr pkgParse tempDir pid port alive).1 =
        RunResp.err e2 →
      (∀ en ∈ (run_project st tree matErr pkgParse tempDir pid port alive).2.registry,
        en.pid ≠ pid) ∧
      tempDir ∉ (run_project st tree matErr pkgParse tempDir pid port alive).2.dirs := by
  intro e2 herr
  unfold run_project at herr ⊢
  cases matErr with
  | some msg => exact ⟨hfresh, not_mem_filter_ne _ _⟩
  | none =>
    cases hdet : detectCmds tree port pkgParse with
    | noRoot => exact ⟨hfresh, not_mem_filter_ne _ _⟩
    | noRun => exact ⟨hfresh, not_mem_filter_ne _ _⟩
    | exc => exact ⟨hfresh, not_mem_filter_ne _ _⟩
    | ok d =>
      rw [hdet] at herr
      cases alive with
      | true => simp at herr
      | false => exact ⟨mem_filter_pid _ _, not_mem_filter_ne _ _⟩

/-- Witness for C10 at a failing creation: the manifest-less tree makes
/api/run answer an error, after which the registry has no entry for the
run and the temporary directory is gone. -/
theorem c10_failed_creation_is_clean_witness :
    (∀ en ∈ (run_project ⟨[], []⟩ c4tree none none "t1" "run1" 8002 false).2.registry,
      en.pid ≠ "run1") ∧
    "t1" ∉ (run_project ⟨[], []⟩ c4tree none none "t1" "run1" 8002 false).2.dirs :=
  c10_failed_creation_is_clean ⟨[], []⟩ c4tree none none "t1" "run1" 8002 false
    (by decide)
    ⟨500, "400: Could not find a project root (requirements.txt or package.json)."⟩
    rfl

/-- The response body of /api/stop. -/
structure StopResp where
  success : Bool
  message : String
deriving DecidableEq

/-- Model of the /api/stop endpoint (stop_project, lines 440-480):
a process id absent from the registry yields the benign
`not found or already stopped` body with the state untouched; a present
id has its process killed (abstracted), its entry deleted from the
registry and success reported; the temporary directory is never
deleted.  `killThrows` selects the defensive `except` path (lines
472-480), which still removes the entry and still reports success. -/
def stop_project (st : SrvState) (pid : String) (killThrows : Bool) :
    StopResp × SrvState :=
  if (st.registry.find? (fun e => e.pid == pid)).isSome then
    if killThrows then
      (⟨true, "Process " ++ pid ++ " removed from tracking (may have been stuck)."⟩,
        ⟨st.registry.filter (fun e => e.pid != pid), st.dirs⟩)
    else
      (⟨true, "Process " ++ pid ++ " stopped successfully."⟩,
        ⟨st.registry.filter (fun e => e.pid != pid), st.dirs⟩)
  else
    (⟨false, "Process " ++ pid ++ " not found or already stopped."⟩, st)

/-- C9: for every process_id not present in the run registry, /api/stop
returns the benign `not found or already stopped` body — success false
but a normal HTTP 200 response, with the state untouched — and raises
no error to the caller (the model is a total function into plain
responses: stop_project has no error outcome). -/
theorem c9_stop_unknown_benign (st : SrvState) (pid : String) (kt : Bool)
    (h : ∀ e ∈ st.registry, e.pid ≠ pid) :
    stop_project st pid kt =
      (⟨false, "Process " ++ pid ++ " not found or already stopped."⟩, st) := by
  unfold stop_project
  have hf : st.registry.find? (fun e => e.pid == pid) = none :=
    List.find?_eq_none.mpr (fun e he => by simpa using h e he)
  rw [hf]
  rfl

/-- Witness for C9 at a registry not containing the stopped id. -/
theorem c9_stop_unknown_benign_witness :
    stop_project ⟨[⟨"run2", 8003, "t2"⟩], ["t2"]⟩ "run1" false =
      (⟨false, "Process " ++ "run1" ++ " not found or already stopped."⟩,
        ⟨[⟨"run2", 8003, "t2"⟩], ["t2"]⟩) :=
  c9_stop_unknown_benign ⟨[⟨"run2", 8003, "t2"⟩], ["t2"]⟩ "run1" false (by decide)

def c5st : SrvState := ⟨[⟨"run1", 8002, "tmp1"⟩], ["tmp1"]⟩

/-- Counterexample for C5 as stated: stopping the registered run run1
succeeds and removes it from the active-run listing, but its temporary
working directory tmp1 is still on disk afterwards — stop_project never
touches it and cleanup_process deliberately skips directory deletion
(line 65: "Don't bother with temp directory cleanup"), so no deletion
is even attempted. -/
theorem c5_counterexample :
    (stop_project c5st "run1" false).1.success = true ∧
    (∀ e ∈ (stop_project c5st "run1" false).2.registry, e.pid ≠ "run1") ∧
    "tmp1" ∈ (stop_project c5st "run1" false).2.dirs ∧
    (stop_project c5st "run1" false).2.dirs = c5st.dirs := by
  decide

/-- C5 (amended): after every successful /api/stop of a registered run,
the run identifier is absent from the active-run listing, but the run's
temporary working directory remains on disk: its deletion is not
attempted (the directories are left to the operating system). -/
theorem c5_stop_removes_entry_keeps_workdir (st : SrvState) (pid : String)
    (kt : Bool)
    (h : (st.registry.find? (fun e => e.pid == pid)).isSome = true) :
    (stop_project st pid kt).1.success = true ∧
    (∀ e ∈ (stop_project st pid kt).2.registry, e.pid ≠ pid) ∧
    (stop_project st pid kt).2.dirs = st.dirs := by
  unfold stop_project
  rw [h]
  cases kt with
  | true => exact ⟨rfl, mem_filter_pid _ _, rfl⟩
  | false => exact ⟨rfl, mem_filter_pid _ _, rfl⟩

/-- Witness for the amended C5 at a concrete registered run. -/
theorem c5_stop_removes_entry_keeps_workdir_witness :
    (stop_project c5st "run1" false).1.success = true ∧
    (∀ e ∈ (stop_project c5st "run1" false).2.registry, e.pid ≠ "run1") ∧
    (stop_project c5st "run1" false).2.dirs = c5st.dirs :=
  c5_stop_removes_entry_keeps_workdir c5st "run1" false (by decide)

def c3wsub : FTree := FTree.mk [("requirements.txt", "flask")] FDirs.nil

def c3w : FTree := FTree.mk [] (FDirs.fcons "app" c3wsub FDirs.nil)

/-- Witness for the amended C3 at a concrete tree with one manifest
directory: the found directory is reachable, holds a manifest, and
nothing before it in walk order does. -/
theorem c3_find_root_first_dfs_witness :
    Subdir c3w ["app"] c3wsub ∧ hasManifest c3wsub = true ∧
    ∃ l1 l2, walk c3w = l1 ++ (["app"], c3wsub) :: l2 ∧
      ∀ pr ∈ l1, hasManifest pr.2 = false :=
  (c3_find_root_first_dfs c3w).2 ["app"] c3wsub rfl
